import Mathlib

/-!
Verification of the Q-CTRL Cirq adapter (`qctrl-cirq`): conversion of a
dynamical decoupling sequence (DDS) into a gate timeline / circuit.

The converter module itself (`qctrlcirq`) is not present in the repository
snapshot; only the example notebook
`examples/export-a-dynamical-decoupling-sequence-to-cirq.ipynb`, docs, CI
configuration and packaging are.  The notebook, however, documents the
algorithm ("the pauses in-between unitaries are replaced with the closest
integer number of identity gates", and the identity-gate approximation note:
a delay of 1.25 µs is approximated by 3 identity gates of 0.4 µs) and embeds
the full rendered circuit for the 10-pulse quadratic sequence:

  0: ─Rx(0.5π)─I─I─I─Rz(π)─I─I─I─I─I─I─Rz(π)─I─I─I─Rx(π)─I─I─I─I─I─I─Rz(π)
     ─I─I─I─I─I─I─I─I─I─I─I─I─Rz(π)─I─I─I─I─I─I─Rx(π)─I─I─I─Rz(π)─I─I─I─I─I─I
     ─Rz(π)─I─I─I─Rx(-0.5π)─M('qubit-0')─

We therefore embed two models:
* `convertCircuit` — the circuit converter, following the notebook's own
  description (per-gap filler counts) and validated below against the
  notebook's rendered circuit, with validation and gate derivation modelled
  from the spec where the notebook is silent;
* `convertSpec` — the global-slot-grid timeline construction, modelled from
  the spec's words (slot budget `round(duration / gate_time)`, per-pulse slot
  `round(offset / gate_time)` clamped), used for the claims whose deciding
  code is absent from the snapshot.

All angles are represented as rational multiples of π (so `1/2` stands for
the angle 0.5π); offsets, durations and gate times are rationals in seconds.
-/

namespace QctrlCirq

/-- A single DDS pulse, as exposed by the upstream open-controls library:
a time `offset` into the sequence plus three rotation parameters.  The
rotation angles are stored as rational multiples of π. -/
structure Pulse where
  offset : ℚ
  rabi_rotation : ℚ
  azimuthal_angle : ℚ
  detuning_rotation : ℚ
deriving DecidableEq

/-- A dynamical decoupling sequence: a total `duration` (seconds) plus an
ordered list of pulses with offsets in `[0, duration]`. -/
structure DdSequence where
  duration : ℚ
  pulses : List Pulse
deriving DecidableEq

/-- A gate in the emitted circuit.  `rx`, `ry`, `rz` are rotations about the
X, Y, Z axes by the given multiple of π; `phasedXY` is a rotation about the
axis in the X-Y plane at the given azimuthal angle from X; `identity` is the
filler identity gate; `meas` is a measurement tagged with its key. -/
inductive Gate where
  | rx (angle : ℚ)
  | ry (angle : ℚ)
  | rz (angle : ℚ)
  | phasedXY (azimuthalAngle : ℚ) (angle : ℚ)
  | identity
  | meas (key : String)
deriving DecidableEq

/-- The error raised on invalid or contradictory input. -/
inductive ConfigurationError where
  | mk (message : String)
deriving DecidableEq

deriving instance DecidableEq for Except

/-- Nearest-integer rounding with ties broken toward the lower integer:
`roundNearest q = ⌈q - 1/2⌉`.  The tie behaviour is pinned by the notebook's
rendered circuit: the 5 µs pause (12.5 gate times) is filled with 12 identity
gates, so 12.5 rounds down (consistent with the spec's "ties broken toward
the lower slot" and with Python's round-half-to-even at this input). -/
def roundNearest (q : ℚ) : ℤ := ⌈q - 1 / 2⌉

/-- True when a gate is a measurement. -/
def Gate.isMeasurement : Gate → Bool
  | .meas _ => true
  | _ => false

/-- Gate emitted for a pulse whose Rabi rotation is non-zero: a rotation of
magnitude `angle` about the axis in the X-Y plane at `azimuthalAngle`
(multiples of π) from X.  Modelled from the spec: azimuthal angle exactly 0
reduces to a pure X rotation, exactly π/2 to a pure Y rotation; the
azimuthal-angle-π case is pinned by the notebook circuit, whose final pulse
(Rabi rotation 0.5π, azimuthal angle π) renders as `Rx(-0.5π)`, i.e. the
axis-angle pair is folded through cos/sin into a signed X or Y rotation. -/
def xyGate (azimuthalAngle angle : ℚ) : Gate :=
  if azimuthalAngle = 0 then .rx angle
  else if azimuthalAngle = 1 then .rx (-angle)
  else if azimuthalAngle = 1 / 2 then .ry angle
  else if azimuthalAngle = 3 / 2 then .ry (-angle)
  else .phasedXY azimuthalAngle angle

/-- Modelled from the spec: derivation of the physical gate from the triple
`(rabi_rotation, azimuthal_angle, detuning_rotation)` (the converter source
is absent from the snapshot).  Simultaneous non-zero Rabi and detuning
rotation is rejected with a `ConfigurationError`; a non-zero Rabi rotation
yields the X-Y-plane rotation `xyGate`; a non-zero detuning rotation yields
a Z rotation; an all-zero pulse degenerates to an identity. -/
def gateOfPulse (p : Pulse) : Except ConfigurationError Gate :=
  if p.rabi_rotation ≠ 0 ∧ p.detuning_rotation ≠ 0 then
    .error (.mk "pulse specifies both rabi_rotation and detuning_rotation")
  else if p.rabi_rotation ≠ 0 then
    .ok (xyGate p.azimuthal_angle p.rabi_rotation)
  else if p.detuning_rotation ≠ 0 then
    .ok (.rz p.detuning_rotation)
  else
    .ok .identity

/-- Derive the gates of all pulses, failing on the first invalid pulse
(eager validation: no partial output survives an error). -/
def gatesOfPulses : List Pulse → Except ConfigurationError (List Gate)
  | [] => .ok []
  | p :: ps => do
    let g ← gateOfPulse p
    let gs ← gatesOfPulses ps
    pure (g :: gs)

/-- Measurement key of a target qubit, as in the notebook output
(`M('qubit-0')`, histogram key "qubit-0"). -/
def measKey (q : ℕ) : String := "qubit-" ++ toString q

/-- Lay gates out on the time axis the way the notebook describes the circuit
converter: walking the pulses in order from the previous pulse's offset
(starting at time 0), each pause is replaced with the closest integer number
of identity gates, `roundNearest ((offset - prev) / gateTime)`, followed by
the pulse's own gate. -/
def layOut (gateTime : ℚ) : ℚ → List (ℚ × Gate) → List Gate
  | _, [] => []
  | prev, (off, g) :: rest =>
    List.replicate (roundNearest ((off - prev) / gateTime)).toNat Gate.identity
      ++ g :: layOut gateTime off rest

/-- The circuit converter `convert_dds_to_cirq_circuit`.  The function's
source is absent from the snapshot; the layout follows the notebook's own
algorithm description and is validated against the notebook's rendered
circuit (`convertCircuit_quadratic` below); the validation checks are
modelled from the spec.  Returns the flat ordered gate list (broadcast
identically to every target qubit), with one measurement per target qubit
appended when `addMeasurement` is set. -/
def convertCircuit (seq : DdSequence) (targetQubits : List ℕ) (gateTime : ℚ)
    (addMeasurement : Bool) : Except ConfigurationError (List Gate) :=
  if gateTime ≤ 0 then .error (.mk "gate_time must be positive")
  else if seq.duration ≤ 0 then .error (.mk "duration must be positive")
  else if targetQubits = [] then .error (.mk "target_qubits must be non-empty")
  else do
    let gates ← gatesOfPulses seq.pulses
    let body := layOut gateTime 0 ((seq.pulses.map Pulse.offset).zip gates)
    let measures :=
      if addMeasurement then targetQubits.map (fun q => Gate.meas (measKey q)) else []
    pure (body ++ measures)

/-- An entry of the spec's Gate-Timeline: a rotation anchored at a slot, a
filler occupying one slot, or a trailing measurement. -/
inductive Entry where
  | rotationAt (slot : ℕ) (g : Gate)
  | fillerAt (slot : ℕ)
  | measurement (qubit : ℕ) (key : String)
deriving DecidableEq

/-- True when a timeline entry is a measurement entry. -/
def Entry.isMeasurementEntry : Entry → Bool
  | .measurement _ _ => true
  | _ => false

/-- Modelled from the spec: the total slot budget,
`slot_count = round(duration / gate_time)`. -/
def slotCount (duration gateTime : ℚ) : ℤ := roundNearest (duration / gateTime)

/-- Modelled from the spec: a pulse's target slot index,
`round(offset / gate_time)` clamped to `[0, slot_count]`. -/
def pulseSlot (gateTime : ℚ) (slotCnt : ℤ) (offset : ℚ) : ℤ :=
  min slotCnt (max 0 (roundNearest (offset / gateTime)))

/-- Modelled from the spec: the timeline entries emitted at one slot.  A slot
claimed by no pulse yields a single filler; a slot claimed by one or more
pulses yields one rotation entry per pulse in original order, an all-zero
pulse degenerating to a filler. -/
def entriesAtSlot (gateTime : ℚ) (slotCnt : ℤ) (pulseGates : List (Pulse × Gate))
    (s : ℕ) : List Entry :=
  let claimed := pulseGates.filter (fun pg => pulseSlot gateTime slotCnt pg.1.offset = (s : ℤ))
  if claimed = [] then [.fillerAt s]
  else claimed.map (fun pg =>
    if pg.2 = Gate.identity then Entry.fillerAt s else Entry.rotationAt s pg.2)

/-- Modelled from the spec: the Sequence-to-Gate-Timeline converter (the
converter source is absent from the snapshot).  Validates eagerly, computes
the slot budget, walks slots `0 .. slot_count` emitting fillers at unclaimed
slots and rotation entries at claimed ones, and appends one measurement entry
per target qubit when requested. -/
def convertSpec (seq : DdSequence) (targetQubits : List ℕ) (gateTime : ℚ)
    (addMeasurement : Bool) : Except ConfigurationError (List Entry) :=
  if gateTime ≤ 0 then .error (.mk "gate_time must be positive")
  else if seq.duration ≤ 0 then .error (.mk "duration must be positive")
  else if targetQubits = [] then .error (.mk "target_qubits must be non-empty")
  else do
    let gates ← gatesOfPulses seq.pulses
    let n := (slotCount seq.duration gateTime).toNat
    let body := (List.range (n + 1)).flatMap
      (entriesAtSlot gateTime (slotCount seq.duration gateTime) (seq.pulses.zip gates))
    let measures :=
      if addMeasurement then
        targetQubits.map (fun q => Entry.measurement q (measKey q))
      else []
    pure (body ++ measures)

/-! ### The notebook's quadratic example

Duration 20 µs (= 1/50000 s), gate time 0.4 µs (= 1/2500000 s), ten pulses at
offsets `[0, 1/16, 3/16, 1/4, 3/8, 5/8, 3/4, 13/16, 15/16, 1] * 20 µs`
(the notebook prints these fractions up to floating-point noise), Rabi
rotations `[1/2, 0, 0, 1, 0, 0, 1, 0, 0, 1/2] * π`, azimuthal angles all zero
except the final π, detuning rotations `[0, 1, 1, 0, 1, 1, 0, 1, 1, 0] * π`. -/

/-- Total duration of the notebook's quadratic sequence: 20 µs. -/
def quadraticDuration : ℚ := 1 / 50000

/-- Gate time used by the notebook: 0.4 µs. -/
def exampleGateTime : ℚ := 1 / 2500000

/-- The notebook's quadratic sequence (pre/post X rotations included). -/
def quadraticSequence : DdSequence where
  duration := quadraticDuration
  pulses :=
    [⟨0, 1 / 2, 0, 0⟩,
     ⟨1 / 16 * quadraticDuration, 0, 0, 1⟩,
     ⟨3 / 16 * quadraticDuration, 0, 0, 1⟩,
     ⟨1 / 4 * quadraticDuration, 1, 0, 0⟩,
     ⟨3 / 8 * quadraticDuration, 0, 0, 1⟩,
     ⟨5 / 8 * quadraticDuration, 0, 0, 1⟩,
     ⟨3 / 4 * quadraticDuration, 1, 0, 0⟩,
     ⟨13 / 16 * quadraticDuration, 0, 0, 1⟩,
     ⟨15 / 16 * quadraticDuration, 0, 0, 1⟩,
     ⟨quadraticDuration, 1 / 2, 1, 0⟩]

/-- `n` filler identity gates. -/
def idGates (n : ℕ) : List Gate := List.replicate n Gate.identity

/-- The circuit rendered in the notebook for the quadratic sequence,
transcribed gate by gate from the text diagram. -/
def quadraticCircuitDiagram : List Gate :=
  [Gate.rx (1 / 2)] ++ idGates 3 ++ [Gate.rz 1] ++ idGates 6 ++ [Gate.rz 1]
    ++ idGates 3 ++ [Gate.rx 1] ++ idGates 6 ++ [Gate.rz 1] ++ idGates 12
    ++ [Gate.rz 1] ++ idGates 6 ++ [Gate.rx 1] ++ idGates 3 ++ [Gate.rz 1]
    ++ idGates 6 ++ [Gate.rz 1] ++ idGates 3
    ++ [Gate.rx (-(1 / 2)), Gate.meas "qubit-0"]

unseal Rat.add Rat.sub Rat.mul Rat.inv in
/-- The embedded circuit converter reproduces the notebook's rendered
circuit for the quadratic sequence exactly. -/
theorem convertCircuit_quadratic :
    convertCircuit quadraticSequence [0] exampleGateTime true
      = .ok quadraticCircuitDiagram := by decide

/-! ### Helper lemmas -/

/-- The per-gap filler counts of the circuit layout: walking the offsets in
order from the previous offset (starting at `prev`), each pause contributes
`roundNearest (pause / gateTime)` identity gates. -/
def fillCounts (gateTime : ℚ) : ℚ → List ℚ → List ℕ
  | _, [] => []
  | prev, off :: rest =>
    (roundNearest ((off - prev) / gateTime)).toNat :: fillCounts gateTime off rest

theorem layOut_length (gateTime : ℚ) (prev : ℚ) (l : List (ℚ × Gate)) :
    (layOut gateTime prev l).length
      = (fillCounts gateTime prev (l.map Prod.fst)).sum + l.length := by
  induction l generalizing prev with
  | nil => rfl
  | cons a rest ih =>
    obtain ⟨off, g⟩ := a
    simp [layOut, fillCounts, ih off]
    omega

theorem gatesOfPulses_length {ps : List Pulse} {gs : List Gate}
    (h : gatesOfPulses ps = .ok gs) : gs.length = ps.length := by
  induction ps generalizing gs with
  | nil =>
    simp only [gatesOfPulses] at h
    cases h
    rfl
  | cons p rest ih =>
    simp only [gatesOfPulses] at h
    cases hg : gateOfPulse p with
    | error e => rw [hg] at h; cases h
    | ok g =>
      rw [hg] at h
      cases hrest : gatesOfPulses rest with
      | error e => rw [hrest] at h; cases h
      | ok gsr =>
        rw [hrest] at h
        cases h
        simp [ih hrest]

theorem gateOfPulse_not_meas {p : Pulse} {g : Gate} (h : gateOfPulse p = .ok g) :
    g.isMeasurement = false := by
  unfold gateOfPulse at h
  split at h
  · cases h
  · split at h
    · cases h
      unfold xyGate
      split
      · rfl
      · split
        · rfl
        · split
          · rfl
          · split
            · rfl
            · rfl
    · split at h
      · cases h; rfl
      · cases h; rfl

theorem gatesOfPulses_not_meas {ps : List Pulse} {gs : List Gate}
    (h : gatesOfPulses ps = .ok gs) : ∀ g ∈ gs, g.isMeasurement = false := by
  induction ps generalizing gs with
  | nil =>
    simp only [gatesOfPulses] at h
    cases h
    intro g hg
    cases hg
  | cons p rest ih =>
    simp only [gatesOfPulses] at h
    cases hg : gateOfPulse p with
    | error e => rw [hg] at h; cases h
    | ok g =>
      rw [hg] at h
      cases hrest : gatesOfPulses rest with
      | error e => rw [hrest] at h; cases h
      | ok gsr =>
        rw [hrest] at h
        cases h
        intro g' hg'
        cases hg' with
        | head => exact gateOfPulse_not_meas hg
        | tail _ hmem => exact ih hrest g' hmem

theorem layOut_not_meas (gateTime prev : ℚ) (l : List (ℚ × Gate))
    (hl : ∀ pg ∈ l, (Prod.snd pg).isMeasurement = false) :
    ∀ g ∈ layOut gateTime prev l, g.isMeasurement = false := by
  induction l generalizing prev with
  | nil => intro g hg; cases hg
  | cons a rest ih =>
    obtain ⟨off, g0⟩ := a
    intro g hg
    simp only [layOut, List.mem_append, List.mem_cons] at hg
    rcases hg with hrep | hfirst | hrest
    · rw [List.eq_of_mem_replicate hrep]; rfl
    · rw [hfirst]
      exact hl (off, g0) (List.mem_cons_self _ _)
    · exact ih off (fun pg hpg => hl pg (List.mem_cons_of_mem _ hpg)) g hrest

theorem convertCircuit_ok {seq : DdSequence} {targetQubits : List ℕ} {gateTime : ℚ}
    {addMeasurement : Bool} {circuit : List Gate}
    (h : convertCircuit seq targetQubits gateTime addMeasurement = .ok circuit) :
    ∃ gs, gatesOfPulses seq.pulses = .ok gs
      ∧ circuit = layOut gateTime 0 ((seq.pulses.map Pulse.offset).zip gs)
          ++ (if addMeasurement then
                targetQubits.map (fun q => Gate.meas (measKey q))
              else []) := by
  unfold convertCircuit at h
  split at h
  · cases h
  split at h
  · cases h
  split at h
  · cases h
  cases hgs : gatesOfPulses seq.pulses with
  | error e => rw [hgs] at h; cases h
  | ok gs =>
    rw [hgs] at h
    simp only [Except.bind, pure, Except.pure] at h
    cases h
    exact ⟨gs, rfl, rfl⟩

unseal Rat.add Rat.sub Rat.mul Rat.inv in
theorem roundNearest_zero : roundNearest 0 = 0 := by decide

unseal Rat.add Rat.sub Rat.mul Rat.inv in
theorem ceil_neg_half : ⌈(-(1 / 2) : ℚ)⌉ = 0 := by decide

theorem roundNearest_intCast (n : ℤ) : roundNearest (n : ℚ) = n := by
  unfold roundNearest
  rw [sub_eq_add_neg, add_comm, Int.ceil_add_int, ceil_neg_half, zero_add]

theorem roundNearest_mono {p q : ℚ} (h : p ≤ q) : roundNearest p ≤ roundNearest q :=
  Int.ceil_mono (sub_le_sub_right h _)

theorem slotCount_nonneg {duration gateTime : ℚ} (hg : 0 < gateTime) (hd : 0 < duration) :
    0 ≤ slotCount duration gateTime := by
  have h0 : (0 : ℚ) ≤ duration / gateTime := div_nonneg hd.le hg.le
  calc (0 : ℤ) = roundNearest 0 := roundNearest_zero.symm
    _ ≤ roundNearest (duration / gateTime) := roundNearest_mono h0

/-! ### Claims -/

unseal Rat.add Rat.sub Rat.mul Rat.inv in
/-- C1 counterexample: for `duration = 20e-6`, `gate_time = 0.4e-6` and the
notebook's 10-pulse quadratic sequence (whose pulses round to distinct
slots), the circuit produced by the converter — identical to the circuit
rendered in the notebook — contains exactly 58 gate operations before the
measurement, not the 51 (= slot_count + 1) the claim asserts. -/
theorem C1_counterexample :
    convertCircuit quadraticSequence [0] exampleGateTime true
        = .ok quadraticCircuitDiagram
    ∧ (quadraticCircuitDiagram.filter (fun g => !g.isMeasurement)).length = 58
    ∧ (quadraticCircuitDiagram.filter (fun g => !g.isMeasurement)).length ≠ 51 := by
  decide

unseal Rat.add Rat.sub Rat.mul Rat.inv in
/-- C1 (amended): the converter does not lay pulses on a single global slot
grid of `round(duration / gate_time) + 1` slots; instead each pause is filled
with `round(pause / gate_time)` identity gates, so for every input accepted
by the converter the number of emitted gate operations before any measurement
equals the number of pulses plus the sum of the per-gap filler counts — for
the quadratic example 58 gate operations before the measurement, not 51. -/
theorem C1_entry_count (seq : DdSequence) (targetQubits : List ℕ) (gateTime : ℚ)
    (addMeasurement : Bool) (circuit : List Gate)
    (h : convertCircuit seq targetQubits gateTime addMeasurement = .ok circuit) :
    (circuit.filter (fun g => !g.isMeasurement)).length
        = (fillCounts gateTime 0 (seq.pulses.map Pulse.offset)).sum + seq.pulses.length
    ∧ (quadraticCircuitDiagram.filter (fun g => !g.isMeasurement)).length = 58 := by
  refine ⟨?_, by decide⟩
  obtain ⟨gs, hgs, rfl⟩ := convertCircuit_ok h
  have hlen : gs.length = seq.pulses.length := gatesOfPulses_length hgs
  have hfst : ((seq.pulses.map Pulse.offset).zip gs).map Prod.fst
      = seq.pulses.map Pulse.offset :=
    List.map_fst_zip _ _ (by simp [hlen])
  have hzlen : ((seq.pulses.map Pulse.offset).zip gs).length = seq.pulses.length := by
    simp [hlen]
  have hbody : ∀ g ∈ layOut gateTime 0 ((seq.pulses.map Pulse.offset).zip gs),
      g.isMeasurement = false := by
    apply layOut_not_meas
    intro pg hpg
    exact gatesOfPulses_not_meas hgs pg.2 (List.of_mem_zip hpg).2
  rw [List.filter_append]
  have h1 : (layOut gateTime 0 ((seq.pulses.map Pulse.offset).zip gs)).filter
      (fun g => !g.isMeasurement) = layOut gateTime 0 ((seq.pulses.map Pulse.offset).zip gs) := by
    apply List.filter_eq_self.mpr
    intro g hg
    simp [hbody g hg]
  have h2 : ((if addMeasurement then targetQubits.map (fun q => Gate.meas (measKey q))
      else []).filter (fun g => !g.isMeasurement)) = [] := by
    split
    · apply List.filter_eq_nil_iff.mpr
      intro g hg
      simp only [List.mem_map] at hg
      obtain ⟨q, _, rfl⟩ := hg
      simp [Gate.isMeasurement]
    · rfl
  rw [h1, h2, List.append_nil, layOut_length, hfst, hzlen]

unseal Rat.add Rat.sub Rat.mul Rat.inv in
/-- Witness for C1 (amended), at the notebook's quadratic input. -/
theorem C1_entry_count_witness :
    (quadraticCircuitDiagram.filter (fun g => !g.isMeasurement)).length
        = (fillCounts exampleGateTime 0 (quadraticSequence.pulses.map Pulse.offset)).sum
          + quadraticSequence.pulses.length
    ∧ (quadraticCircuitDiagram.filter (fun g => !g.isMeasurement)).length = 58 :=
  C1_entry_count quadraticSequence [0] exampleGateTime true quadraticCircuitDiagram
    (by decide)

/-- C2: in the spec-modelled timeline construction, a pulse's slot index is
`round(offset / gate_time)` clamped to `[0, slot_count]`; hence a pulse at
offset 0 is mapped to slot 0, a pulse at `offset = duration` is mapped to
slot `slot_count`, and every pulse's slot lies in `[0, slot_count]`. -/
theorem C2_slot_boundaries (duration gateTime : ℚ) (hg : 0 < gateTime)
    (hd : 0 < duration) :
    pulseSlot gateTime (slotCount duration gateTime) 0 = 0
    ∧ pulseSlot gateTime (slotCount duration gateTime) duration
        = slotCount duration gateTime
    ∧ ∀ offset : ℚ, 0 ≤ pulseSlot gateTime (slotCount duration gateTime) offset
        ∧ pulseSlot gateTime (slotCount duration gateTime) offset
            ≤ slotCount duration gateTime := by
  have hn : 0 ≤ slotCount duration gateTime := slotCount_nonneg hg hd
  refine ⟨?_, ?_, ?_⟩
  · unfold pulseSlot
    rw [zero_div, roundNearest_zero, max_self, min_eq_right hn]
  · show min (slotCount duration gateTime)
        (max 0 (roundNearest (duration / gateTime))) = slotCount duration gateTime
    rw [show roundNearest (duration / gateTime) = slotCount duration gateTime from rfl,
      max_eq_right hn, min_self]
  · intro off
    exact ⟨le_min hn (le_max_left 0 _), min_le_left _ _⟩

unseal Rat.add Rat.sub Rat.mul Rat.inv in
/-- Witness for C2: the notebook's numbers, `duration = 20e-6` and
`gate_time = 0.4e-6`, give `slot_count = 50`, the offset-0 pulse lands in
slot 0 and the offset-`duration` pulse in slot 50. -/
theorem C2_slot_boundaries_witness :
    slotCount (1 / 50000) (1 / 2500000) = 50
    ∧ pulseSlot (1 / 2500000) (slotCount (1 / 50000) (1 / 2500000)) 0 = 0
    ∧ pulseSlot (1 / 2500000) (slotCount (1 / 50000) (1 / 2500000)) (1 / 50000)
        = slotCount (1 / 50000) (1 / 2500000) :=
  ⟨by decide,
    (C2_slot_boundaries (1 / 50000) (1 / 2500000) (by norm_num) (by norm_num)).1,
    (C2_slot_boundaries (1 / 50000) (1 / 2500000) (by norm_num) (by norm_num)).2.1⟩

unseal Rat.add Rat.sub Rat.mul Rat.inv in
/-- C3: between any two consecutive pulses the converter emits exactly
`round((difference of their offsets) / gate_time)` identity gates — the idle
padding is per inter-pulse gap, not a global slot grid; with
`gate_time = 0.4e-6` the gaps 1.25 µs, 2.5 µs and 5.0 µs yield 3, 6 and 12
identity gates, and the 10-pulse quadratic sequence yields 58 gate
operations in total before the measurement. -/
theorem C3_gap_fillers (gateTime prev : ℚ) (xs : List (ℚ × Gate)) (a b : ℚ × Gate)
    (ys : List (ℚ × Gate)) :
    layOut gateTime prev (xs ++ a :: b :: ys)
        = layOut gateTime prev (xs ++ [a])
          ++ List.replicate (roundNearest ((b.1 - a.1) / gateTime)).toNat Gate.identity
          ++ b.2 :: layOut gateTime b.1 ys
    ∧ roundNearest ((1 / 800000 : ℚ) / (1 / 2500000)) = 3
    ∧ roundNearest ((1 / 400000 : ℚ) / (1 / 2500000)) = 6
    ∧ roundNearest ((1 / 200000 : ℚ) / (1 / 2500000)) = 12
    ∧ convertCircuit quadraticSequence [0] exampleGateTime true
        = .ok quadraticCircuitDiagram
    ∧ (quadraticCircuitDiagram.filter (fun g => !g.isMeasurement)).length = 58 := by
  refine ⟨?_, by decide, by decide, by decide, by decide, by decide⟩
  induction xs generalizing prev with
  | nil =>
    obtain ⟨o1, g1⟩ := a
    obtain ⟨o2, g2⟩ := b
    simp [layOut]
  | cons c rest ih =>
    obtain ⟨oc, gc⟩ := c
    simp only [List.cons_append, layOut, List.append_eq, ih oc, List.append_assoc]

theorem gateOfPulse_error_of_both {p : Pulse} (hr : p.rabi_rotation ≠ 0)
    (hd : p.detuning_rotation ≠ 0) :
    gateOfPulse p
      = .error (.mk "pulse specifies both rabi_rotation and detuning_rotation") := by
  unfold gateOfPulse
  rw [if_pos ⟨hr, hd⟩]

theorem gatesOfPulses_error_of_mem {ps : List Pulse} {p : Pulse} {e0 : ConfigurationError}
    (hp : p ∈ ps) (he : gateOfPulse p = .error e0) :
    ∃ e, gatesOfPulses ps = .error e := by
  induction ps with
  | nil => cases hp
  | cons q rest ih =>
    cases hq : gateOfPulse q with
    | error e =>
      refine ⟨e, ?_⟩
      simp only [gatesOfPulses]
      rw [hq]
      rfl
    | ok g =>
      cases hp with
      | head =>
        rw [hq] at he
        cases he
      | tail _ hmem =>
        obtain ⟨e, hrest⟩ := ih hmem
        refine ⟨e, ?_⟩
        simp only [gatesOfPulses]
        rw [hq]
        show ((gatesOfPulses rest).bind fun gs => Except.ok (g :: gs)) = Except.error e
        rw [hrest]
        rfl

theorem convertCircuit_error_of_gates {seq : DdSequence} {targetQubits : List ℕ}
    {gateTime : ℚ} {addMeasurement : Bool} {e0 : ConfigurationError}
    (hgs : gatesOfPulses seq.pulses = .error e0) :
    ∃ e, convertCircuit seq targetQubits gateTime addMeasurement = .error e := by
  by_cases h1 : gateTime ≤ 0
  · exact ⟨_, by unfold convertCircuit; rw [if_pos h1]⟩
  by_cases h2 : seq.duration ≤ 0
  · exact ⟨_, by unfold convertCircuit; rw [if_neg h1, if_pos h2]⟩
  by_cases h3 : targetQubits = []
  · exact ⟨_, by unfold convertCircuit; rw [if_neg h1, if_neg h2, if_pos h3]⟩
  refine ⟨e0, ?_⟩
  unfold convertCircuit
  rw [if_neg h1, if_neg h2, if_neg h3]
  show ((gatesOfPulses seq.pulses).bind fun gates => _) = Except.error e0
  rw [hgs]
  rfl

theorem convertSpec_error_of_gates {seq : DdSequence} {targetQubits : List ℕ}
    {gateTime : ℚ} {addMeasurement : Bool} {e0 : ConfigurationError}
    (hgs : gatesOfPulses seq.pulses = .error e0) :
    ∃ e, convertSpec seq targetQubits gateTime addMeasurement = .error e := by
  by_cases h1 : gateTime ≤ 0
  · exact ⟨_, by unfold convertSpec; rw [if_pos h1]⟩
  by_cases h2 : seq.duration ≤ 0
  · exact ⟨_, by unfold convertSpec; rw [if_neg h1, if_pos h2]⟩
  by_cases h3 : targetQubits = []
  · exact ⟨_, by unfold convertSpec; rw [if_neg h1, if_neg h2, if_pos h3]⟩
  refine ⟨e0, ?_⟩
  unfold convertSpec
  rw [if_neg h1, if_neg h2, if_neg h3]
  show ((gatesOfPulses seq.pulses).bind fun gates => _) = Except.error e0
  rw [hgs]
  rfl

theorem convertCircuit_error_of_invalid {seq : DdSequence} {targetQubits : List ℕ}
    {gateTime : ℚ} {addMeasurement : Bool}
    (h : gateTime ≤ 0 ∨ seq.duration ≤ 0 ∨ targetQubits = []) :
    ∃ e, convertCircuit seq targetQubits gateTime addMeasurement = .error e := by
  by_cases h1 : gateTime ≤ 0
  · exact ⟨_, by unfold convertCircuit; rw [if_pos h1]⟩
  by_cases h2 : seq.duration ≤ 0
  · exact ⟨_, by unfold convertCircuit; rw [if_neg h1, if_pos h2]⟩
  by_cases h3 : targetQubits = []
  · exact ⟨_, by unfold convertCircuit; rw [if_neg h1, if_neg h2, if_pos h3]⟩
  rcases h with h | h | h <;> contradiction

theorem convertSpec_error_of_invalid {seq : DdSequence} {targetQubits : List ℕ}
    {gateTime : ℚ} {addMeasurement : Bool}
    (h : gateTime ≤ 0 ∨ seq.duration ≤ 0 ∨ targetQubits = []) :
    ∃ e, convertSpec seq targetQubits gateTime addMeasurement = .error e := by
  by_cases h1 : gateTime ≤ 0
  · exact ⟨_, by unfold convertSpec; rw [if_pos h1]⟩
  by_cases h2 : seq.duration ≤ 0
  · exact ⟨_, by unfold convertSpec; rw [if_neg h1, if_pos h2]⟩
  by_cases h3 : targetQubits = []
  · exact ⟨_, by unfold convertSpec; rw [if_neg h1, if_neg h2, if_pos h3]⟩
  rcases h with h | h | h <;> contradiction

theorem xyGate_ne_rz (a r θ : ℚ) : xyGate a r ≠ Gate.rz θ := by
  unfold xyGate
  split_ifs <;> simp

theorem xyGate_ne_meas (a r : ℚ) (key : String) : xyGate a r ≠ Gate.meas key := by
  unfold xyGate
  split_ifs <;> simp

/-- C4: a sequence containing a pulse whose `rabi_rotation` and
`detuning_rotation` are both non-zero is rejected by both converters with a
`ConfigurationError`; no timeline is returned (the error result carries no
output). -/
theorem C4_simultaneous_rotations_rejected (seq : DdSequence) (targetQubits : List ℕ)
    (gateTime : ℚ) (addMeasurement : Bool) (p : Pulse) (hp : p ∈ seq.pulses)
    (hr : p.rabi_rotation ≠ 0) (hd : p.detuning_rotation ≠ 0) :
    (∃ e, convertCircuit seq targetQubits gateTime addMeasurement = .error e)
    ∧ ∃ e, convertSpec seq targetQubits gateTime addMeasurement = .error e := by
  obtain ⟨e, hgs⟩ := gatesOfPulses_error_of_mem hp (gateOfPulse_error_of_both hr hd)
  exact ⟨convertCircuit_error_of_gates hgs, convertSpec_error_of_gates hgs⟩

/-- Witness for C4: a pulse with `rabi_rotation = 0.3` and
`detuning_rotation = 0.2` is rejected. -/
theorem C4_simultaneous_rotations_rejected_witness :
    (∃ e, convertCircuit ⟨1, [⟨0, 3 / 10, 0, 1 / 5⟩]⟩ [0] 1 true = .error e)
    ∧ ∃ e, convertSpec ⟨1, [⟨0, 3 / 10, 0, 1 / 5⟩]⟩ [0] 1 true = .error e :=
  C4_simultaneous_rotations_rejected ⟨1, [⟨0, 3 / 10, 0, 1 / 5⟩]⟩ [0] 1 true
    ⟨0, 3 / 10, 0, 1 / 5⟩ (List.mem_singleton_self _) (by norm_num) (by norm_num)

/-- C5: a pulse with non-zero `rabi_rotation` and zero `detuning_rotation`
is emitted as the rotation about the axis in the X-Y plane at
`azimuthal_angle` from X with magnitude `rabi_rotation`; when
`azimuthal_angle = 0` this is exactly the pure X rotation of angle
`rabi_rotation`, and in no case is it a Z rotation or a measurement. -/
theorem C5_xy_rotation (p : Pulse) (hr : p.rabi_rotation ≠ 0)
    (hd : p.detuning_rotation = 0) :
    gateOfPulse p = .ok (xyGate p.azimuthal_angle p.rabi_rotation)
    ∧ (p.azimuthal_angle = 0 → gateOfPulse p = .ok (Gate.rx p.rabi_rotation))
    ∧ (∀ angle, xyGate p.azimuthal_angle p.rabi_rotation ≠ Gate.rz angle)
    ∧ ∀ key, xyGate p.azimuthal_angle p.rabi_rotation ≠ Gate.meas key := by
  have h1 : gateOfPulse p = .ok (xyGate p.azimuthal_angle p.rabi_rotation) := by
    unfold gateOfPulse
    rw [if_neg (fun h => h.2 hd), if_pos hr]
  refine ⟨h1, fun ha => ?_, fun angle => xyGate_ne_rz _ _ _,
    fun key => xyGate_ne_meas _ _ _⟩
  rw [h1, ha]
  unfold xyGate
  rw [if_pos rfl]

/-- Witness for C5: `rabi_rotation = 0.5π`, `azimuthal_angle = 0`,
`detuning_rotation = 0` yields exactly the pure X rotation `Rx(0.5π)`. -/
theorem C5_xy_rotation_witness :
    gateOfPulse ⟨0, 1 / 2, 0, 0⟩ = .ok (Gate.rx (1 / 2)) :=
  (C5_xy_rotation ⟨0, 1 / 2, 0, 0⟩ (by norm_num) rfl).2.1 rfl

/-- C6: a pulse with non-zero `detuning_rotation`, zero `rabi_rotation` and
zero `azimuthal_angle` is emitted as the pure Z rotation of angle
`detuning_rotation`. -/
theorem C6_z_rotation (p : Pulse) (hr : p.rabi_rotation = 0)
    (ha : p.azimuthal_angle = 0) (hd : p.detuning_rotation ≠ 0) :
    gateOfPulse p = .ok (Gate.rz p.detuning_rotation) := by
  unfold gateOfPulse
  rw [if_neg (fun h => h.1 hr), if_neg (fun h => h hr), if_pos hd]

/-- Witness for C6: `rabi_rotation = 0`, `azimuthal_angle = 0`,
`detuning_rotation = π` yields the Z rotation `Rz(π)`. -/
theorem C6_z_rotation_witness :
    gateOfPulse ⟨0, 0, 0, 1⟩ = .ok (Gate.rz 1) :=
  C6_z_rotation ⟨0, 0, 0, 1⟩ rfl rfl (by norm_num)

/-- C7: non-positive `gate_time`, non-positive `duration`, or empty
`target_qubits` makes both converters fail with a `ConfigurationError`;
the error result carries no timeline, so no partial timeline is ever
returned on failure. -/
theorem C7_eager_validation (seq : DdSequence) (targetQubits : List ℕ)
    (gateTime : ℚ) (addMeasurement : Bool)
    (h : gateTime ≤ 0 ∨ seq.duration ≤ 0 ∨ targetQubits = []) :
    (∃ e, convertCircuit seq targetQubits gateTime addMeasurement = .error e)
    ∧ ∃ e, convertSpec seq targetQubits gateTime addMeasurement = .error e :=
  ⟨convertCircuit_error_of_invalid h, convertSpec_error_of_invalid h⟩

/-- Witness for C7: `gate_time = 0` is rejected by both converters. -/
theorem C7_eager_validation_witness :
    (∃ e, convertCircuit ⟨1, [⟨0, 1 / 2, 0, 0⟩]⟩ [0] 0 true = .error e)
    ∧ ∃ e, convertSpec ⟨1, [⟨0, 1 / 2, 0, 0⟩]⟩ [0] 0 true = .error e :=
  C7_eager_validation ⟨1, [⟨0, 1 / 2, 0, 0⟩]⟩ [0] 0 true (Or.inl le_rfl)

theorem convertSpec_ok {seq : DdSequence} {targetQubits : List ℕ} {gateTime : ℚ}
    {addMeasurement : Bool} {tl : List Entry}
    (h : convertSpec seq targetQubits gateTime addMeasurement = .ok tl) :
    ∃ gs, gatesOfPulses seq.pulses = .ok gs
      ∧ tl = (List.range ((slotCount seq.duration gateTime).toNat + 1)).flatMap
            (entriesAtSlot gateTime (slotCount seq.duration gateTime) (seq.pulses.zip gs))
          ++ (if addMeasurement then
                targetQubits.map (fun q => Entry.measurement q (measKey q))
              else []) := by
  unfold convertSpec at h
  split at h
  · cases h
  split at h
  · cases h
  split at h
  · cases h
  cases hgs : gatesOfPulses seq.pulses with
  | error e => rw [hgs] at h; cases h
  | ok gs =>
    rw [hgs] at h
    simp only [Except.bind, pure, Except.pure] at h
    cases h
    exact ⟨gs, rfl, rfl⟩

theorem entriesAtSlot_not_meas (gateTime : ℚ) (slotCnt : ℤ)
    (pulseGates : List (Pulse × Gate)) (s : ℕ) :
    ∀ e ∈ entriesAtSlot gateTime slotCnt pulseGates s, e.isMeasurementEntry = false := by
  intro e he
  simp only [entriesAtSlot] at he
  split at he
  · simp only [List.mem_singleton] at he
    rw [he]
    rfl
  · rcases List.mem_map.mp he with ⟨pg, _, rfl⟩
    by_cases hid : pg.2 = Gate.identity
    · rw [if_pos hid]; rfl
    · rw [if_neg hid]; rfl

theorem specBody_not_meas (gateTime : ℚ) (slotCnt : ℤ)
    (pulseGates : List (Pulse × Gate)) (slots : List ℕ) :
    ∀ e ∈ slots.flatMap (entriesAtSlot gateTime slotCnt pulseGates),
      e.isMeasurementEntry = false := by
  intro e he
  rcases List.mem_flatMap.mp he with ⟨s, _, hes⟩
  exact entriesAtSlot_not_meas gateTime slotCnt pulseGates s e hes

/-- C8: with `add_measurement = true`, the spec-modelled timeline ends with
exactly one measurement entry per target qubit, each keyed from that qubit's
identifier, all strictly after every rotation and filler entry (the body
contains no measurement entry); with distinct target qubits the measurement
entries are pairwise distinct; with `add_measurement = false` no measurement
entry is emitted. -/
theorem C8_measurement_entries (seq : DdSequence) (targetQubits : List ℕ)
    (gateTime : ℚ) (tl tlNo : List Entry)
    (ht : convertSpec seq targetQubits gateTime true = .ok tl)
    (hf : convertSpec seq targetQubits gateTime false = .ok tlNo) :
    (∃ body, (∀ e ∈ body, e.isMeasurementEntry = false)
        ∧ tl = body ++ targetQubits.map (fun q => Entry.measurement q (measKey q)))
    ∧ (tl.filter (fun e => e.isMeasurementEntry)).length = targetQubits.length
    ∧ (targetQubits.Nodup → (tl.filter (fun e => e.isMeasurementEntry)).Nodup)
    ∧ ∀ e ∈ tlNo, e.isMeasurementEntry = false := by
  obtain ⟨gs, hgs, htl⟩ := convertSpec_ok ht
  obtain ⟨gs2, hgs2, htl2⟩ := convertSpec_ok hf
  rw [if_pos rfl] at htl
  rw [if_neg Bool.false_ne_true, List.append_nil] at htl2
  have hbody := specBody_not_meas gateTime (slotCount seq.duration gateTime)
    (seq.pulses.zip gs) (List.range ((slotCount seq.duration gateTime).toNat + 1))
  have hbody2 := specBody_not_meas gateTime (slotCount seq.duration gateTime)
    (seq.pulses.zip gs2) (List.range ((slotCount seq.duration gateTime).toNat + 1))
  have h1 : ((List.range ((slotCount seq.duration gateTime).toNat + 1)).flatMap
      (entriesAtSlot gateTime (slotCount seq.duration gateTime) (seq.pulses.zip gs))).filter
        (fun e => e.isMeasurementEntry) = [] :=
    List.filter_eq_nil_iff.mpr (fun e he => by simp [hbody e he])
  have h2 : ((targetQubits.map (fun q => Entry.measurement q (measKey q))).filter
      (fun e => e.isMeasurementEntry))
        = targetQubits.map (fun q => Entry.measurement q (measKey q)) :=
    List.filter_eq_self.mpr (fun e he => by
      rcases List.mem_map.mp he with ⟨q, _, rfl⟩
      rfl)
  have hinj : Function.Injective (fun q : ℕ => Entry.measurement q (measKey q)) := by
    intro a b hab
    simp only [Entry.measurement.injEq] at hab
    exact hab.1
  refine ⟨⟨_, hbody, htl⟩, ?_, ?_, ?_⟩
  · rw [htl, List.filter_append, h1, h2, List.nil_append, List.length_map]
  · intro hnd
    rw [htl, List.filter_append, h1, h2, List.nil_append]
    exact hnd.map hinj
  · intro e he
    rw [htl2] at he
    exact hbody2 e he

unseal Rat.add Rat.sub Rat.mul Rat.inv in
/-- Witness for C8: a one-pulse sequence with two target qubits yields a
timeline ending in the two distinctly keyed measurement entries. -/
theorem C8_measurement_entries_witness :
    (∃ body, (∀ e ∈ body, e.isMeasurementEntry = false)
        ∧ [Entry.rotationAt 0 (Gate.rx (1 / 2)), Entry.fillerAt 1,
            Entry.measurement 0 (measKey 0), Entry.measurement 1 (measKey 1)]
          = body ++ [0, 1].map (fun q => Entry.measurement q (measKey q)))
    ∧ (([Entry.rotationAt 0 (Gate.rx (1 / 2)), Entry.fillerAt 1,
          Entry.measurement 0 (measKey 0), Entry.measurement 1 (measKey 1)].filter
            (fun e => e.isMeasurementEntry)).length = ([0, 1] : List ℕ).length)
    ∧ (([0, 1] : List ℕ).Nodup →
        ([Entry.rotationAt 0 (Gate.rx (1 / 2)), Entry.fillerAt 1,
          Entry.measurement 0 (measKey 0), Entry.measurement 1 (measKey 1)].filter
            (fun e => e.isMeasurementEntry)).Nodup)
    ∧ ∀ e ∈ [Entry.rotationAt 0 (Gate.rx (1 / 2)), Entry.fillerAt 1],
        e.isMeasurementEntry = false :=
  C8_measurement_entries ⟨1, [⟨0, 1 / 2, 0, 0⟩]⟩ [0, 1] 1
    [Entry.rotationAt 0 (Gate.rx (1 / 2)), Entry.fillerAt 1,
      Entry.measurement 0 (measKey 0), Entry.measurement 1 (measKey 1)]
    [Entry.rotationAt 0 (Gate.rx (1 / 2)), Entry.fillerAt 1]
    (by decide) (by decide)

/-- C9: when a pulse offset is an exact multiple `m * gate_time`, the slot
computation has zero approximation error — `offset / gate_time` is exactly
`m` and the pulse is placed exactly in slot `m`, with no rounding drift. -/
theorem C9_exact_multiples (seq : DdSequence) (gateTime : ℚ) (hg : 0 < gateTime)
    (p : Pulse) (hp : p ∈ seq.pulses) (m : ℕ) (hm : p.offset = (m : ℚ) * gateTime)
    (hle : p.offset ≤ seq.duration) :
    p.offset / gateTime = (m : ℚ)
    ∧ pulseSlot gateTime (slotCount seq.duration gateTime) p.offset = m := by
  have hgne : gateTime ≠ 0 := ne_of_gt hg
  have hdiv : p.offset / gateTime = (m : ℚ) := by
    rw [hm, mul_div_assoc, div_self hgne, mul_one]
  refine ⟨hdiv, ?_⟩
  have hcast : ((m : ℤ) : ℚ) = (m : ℚ) := by push_cast; rfl
  have hr : roundNearest (p.offset / gateTime) = (m : ℤ) := by
    rw [hdiv, ← hcast, roundNearest_intCast]
  have hmle : (m : ℤ) ≤ slotCount seq.duration gateTime := by
    have hq : (m : ℚ) ≤ seq.duration / gateTime := by
      rw [← hdiv]
      gcongr
    calc (m : ℤ) = roundNearest ((m : ℤ) : ℚ) := (roundNearest_intCast _).symm
      _ ≤ roundNearest (seq.duration / gateTime) := by
          apply roundNearest_mono
          rw [hcast]
          exact hq
  unfold pulseSlot
  rw [hr, max_eq_right (Int.natCast_nonneg m), min_eq_right hmle]

/-- Witness for C9: a pulse at offset `1 * gate_time` in a unit-duration
sequence lands exactly in slot 1. -/
theorem C9_exact_multiples_witness :
    (1 / 2 : ℚ) / (1 / 2) = ((1 : ℕ) : ℚ)
    ∧ pulseSlot (1 / 2) (slotCount 1 (1 / 2)) (1 / 2) = ((1 : ℕ) : ℤ) :=
  C9_exact_multiples ⟨1, [⟨1 / 2, 1, 0, 0⟩]⟩ (1 / 2) (by norm_num)
    ⟨1 / 2, 1, 0, 0⟩ (List.mem_singleton_self _) 1 (by norm_num) (by norm_num)

unseal Rat.add Rat.sub Rat.mul Rat.inv in
/-- C10: a pulse with non-zero `rabi_rotation` `r`, `azimuthal_angle = π`
and zero `detuning_rotation` is emitted as the negated X rotation `Rx(-r)`,
not a rotation about a distinct axis; in the notebook's quadratic circuit
the final pulse (`r = 0.5π`, azimuthal angle π) is the gate `Rx(-0.5π)`
just before the measurement. -/
theorem C10_pi_azimuthal (p : Pulse) (hr : p.rabi_rotation ≠ 0)
    (ha : p.azimuthal_angle = 1) (hd : p.detuning_rotation = 0) :
    gateOfPulse p = .ok (Gate.rx (-p.rabi_rotation))
    ∧ convertCircuit quadraticSequence [0] exampleGateTime true
        = .ok quadraticCircuitDiagram
    ∧ quadraticCircuitDiagram[57]? = some (Gate.rx (-(1 / 2))) := by
  refine ⟨?_, by decide, by decide⟩
  unfold gateOfPulse
  rw [if_neg (fun h => h.2 hd), if_pos hr]
  unfold xyGate
  rw [ha, if_neg one_ne_zero, if_pos rfl]

unseal Rat.add Rat.sub Rat.mul Rat.inv in
/-- Witness for C10: the final quadratic pulse, `rabi_rotation = 0.5π`,
`azimuthal_angle = π`, is emitted as `Rx(-0.5π)`. -/
theorem C10_pi_azimuthal_witness :
    gateOfPulse ⟨1 / 50000, 1 / 2, 1, 0⟩ = .ok (Gate.rx (-(1 / 2))) :=
  (C10_pi_azimuthal ⟨1 / 50000, 1 / 2, 1, 0⟩ (by norm_num) rfl rfl).1

end QctrlCirq
